import Mathlib

/-!
Verification of the PD (placement driver) core against its specification.

The Go sources are shallowly embedded: times are `Int` nanoseconds since the
epoch, Go's `int64` division by `1e6` is `Int.tdiv` (truncation toward zero),
Go nil pointers are `Option`, fallible calls return `Except`, and code that can
additionally panic on a nil-pointer dereference returns `GoResult`.  External
collaborators (etcd transactions, the wire, the raft nodes, `rand.Intn`, the
wall clock) are passed in as explicit oracles or parameters.
-/

namespace PD

/-- Nanoseconds per millisecond; Go divides `UnixNano` differences by `1e6`. -/
def nsPerMs : Int := 1000000

/-- Constant `updateTimestampStep` from `src/server/tso.go`. -/
def updateTimestampStep : Int := 10

/-- Constant `maxLogical = 1 <<< 18` from `src/server/tso.go`. -/
def maxLogical : Int := 2 ^ 18

/-- Constant `maxRetryNum` from `src/server/tso.go`. -/
def maxRetryNum : Nat := 100

/-- Constant `maxSendRetry` from `src/server/cluster_worker.go`. -/
def maxSendRetry : Nat := 10

/-- Field pair stored in `Server.ts` (`atomicObject` in `src/server/tso.go`):
the physical time in nanoseconds and the logical counter. -/
structure atomicObject where
  physical : Int
  logical : Int
deriving DecidableEq

/-- The TSO-relevant state of a `Server`: the atomically swapped `ts` object,
the in-memory `lastSavedTime`, and the value persisted at the
`<root>/timestamp` key by `saveTimestamp` (`savedTs`). -/
structure TsoState where
  ts : atomicObject
  lastSavedTime : Int
  savedTs : Int
deriving DecidableEq

/-- A `protopb.Timestamp`: physical milliseconds and a logical counter. -/
structure Timestamp where
  physical : Int
  logical : Int
deriving DecidableEq

/-- Embeds the success path of `(*Server).saveTimestamp` from
`src/server/tso.go`: the 8-byte `now.UnixNano()` value is written to the
`<root>/timestamp` key under the leader-lease comparison, and on success
`s.lastSavedTime = now`.  A failed leader comparison aborts the caller and
changes nothing; the state transition below is the successful write. -/
def saveTimestamp (now : Int) (s : TsoState) : TsoState :=
  { s with savedTs := now, lastSavedTime := now }

/-- Embeds `(*Server).updateTimestamp` from `src/server/tso.go` (the path where
`saveTimestamp` succeeds).  `since` is the millisecond difference between `now`
and the previous physical; when `since <= 0` the tick returns without change;
otherwise, when more than `leaderLease` seconds (`leaderLease*1e3` ms) have
passed since `lastSavedTime`, `now` is persisted first; finally the in-memory
pair is replaced by `(physical = now, logical = 0)`. -/
def updateTimestamp (leaderLease now : Int) (s : TsoState) : TsoState :=
  let prev := s.ts
  let since := Int.tdiv (now - prev.physical) nsPerMs
  if since ≤ 0 then s
  else
    let s1 :=
      if Int.tdiv (now - s.lastSavedTime) nsPerMs > leaderLease * 1000 then
        saveTimestamp now s
      else s
    { s1 with ts := { physical := now, logical := 0 } }

/-- Embeds one attempt of `(*Server).getRespTS` from `src/server/tso.go`: the
current object is loaded, the logical counter is atomically incremented, and
the pair `(physical / 1e6, new logical)` is returned unless the new logical
reached `maxLogical`, in which case this attempt yields nothing (the Go code
sleeps and retries up to `maxRetryNum` times). -/
def getRespTS (s : TsoState) : Option (Timestamp × TsoState) :=
  let l := s.ts.logical + 1
  if l ≥ maxLogical then none
  else
    some ({ physical := Int.tdiv s.ts.physical nsPerMs, logical := l },
          { s with ts := { s.ts with logical := l } })

/-- Outcome of `(*Server).syncTimestamp`. -/
inductive SyncResult where
  | errBehind
  | exhausted
  | ok (s : TsoState)
deriving DecidableEq

/-- Embeds `(*Server).syncTimestamp` from `src/server/tso.go`, with the loaded
checkpoint `last` and the successive wall-clock readings `nows` of the loop
supplied explicitly (one reading per iteration; `exhausted` means the supplied
readings ran out while the code would still be sleeping).  When
`since = (now - last) / 1e6 <= 0` the function returns the error
`"now <= last saved time"`; while `2*leaderLease*1e3 - since > 0` it sleeps and
retries; otherwise it persists `now` (success path of `saveTimestamp`) and
seeds the in-memory object with `physical = now` and `logical = 0`. -/
def syncTimestamp (leaderLease last : Int) : List Int → SyncResult
  | [] => .exhausted
  | now :: rest =>
    let since := Int.tdiv (now - last) nsPerMs
    if since ≤ 0 then .errBehind
    else if 2 * leaderLease * 1000 - since > 0 then
      syncTimestamp leaderLease last rest
    else
      .ok { ts := { physical := now, logical := 0 },
            lastSavedTime := now, savedTs := now }

/-- One leader-side TSO event: a tick of the updater with wall clock `now`, or
one client call of `getRespTS`. -/
inductive TsoOp where
  | update (now : Int)
  | getTS
deriving DecidableEq

/-- Applies one TSO event to the state; a successful `getRespTS` emits the
returned timestamp. -/
def applyTsoOp (leaderLease : Int) (s : TsoState) : TsoOp → TsoState × Option Timestamp
  | .update now => (updateTimestamp leaderLease now s, none)
  | .getTS =>
    match getRespTS s with
    | none => (s, none)
    | some (t, s1) => (s1, some t)

/-- Runs a sequence of TSO events, returning the final state and the list of
issued timestamps in order of issue. -/
def runTsoOps (leaderLease : Int) (s : TsoState) : List TsoOp → TsoState × List Timestamp
  | [] => (s, [])
  | op :: ops =>
    let r1 := applyTsoOp leaderLease s op
    let r2 := runTsoOps leaderLease r1.1 ops
    (r2.1, r1.2.toList ++ r2.2)

/-- Strict lexicographic order on timestamps: the order of the data model. -/
def tsLexLt (a b : Timestamp) : Prop :=
  a.physical < b.physical ∨ (a.physical = b.physical ∧ a.logical < b.logical)

instance (a b : Timestamp) : Decidable (tsLexLt a b) := by
  unfold tsLexLt; infer_instance

/-- Invariant of the TSO state under a leader with lease `leaderLease`
(seconds): the in-memory `lastSavedTime` equals the persisted checkpoint, the
checkpoint is nonnegative and never ahead of the in-memory physical, and the
in-memory physical has run ahead of the checkpoint by at most
`leaderLease*1000` whole milliseconds. -/
def TsoInv (leaderLease : Int) (s : TsoState) : Prop :=
  s.lastSavedTime = s.savedTs ∧ 0 ≤ s.savedTs ∧ s.savedTs ≤ s.ts.physical ∧
  Int.tdiv (s.ts.physical - s.savedTs) nsPerMs ≤ leaderLease * 1000

/-- A previously issued timestamp `t` is dominated by the state: it is below
the current physical millisecond, or at it with a logical not beyond the
current counter. -/
def Dominates (s : TsoState) (t : Timestamp) : Prop :=
  t.physical < Int.tdiv s.ts.physical nsPerMs ∨
  (t.physical = Int.tdiv s.ts.physical nsPerMs ∧ t.logical ≤ s.ts.logical)

end PD

namespace PD

/-! Client RPC worker (`src/unnamed/part_000`, package `pd`). -/

/-- A peer of a region (`metapb.Peer`). -/
structure Peer where
  peerId : Nat
  nodeId : Nat
  storeId : Nat
deriving DecidableEq

/-- A store (`metapb.Store`): its id and the id of the node hosting it. -/
structure Store where
  storeId : Nat
  nodeId : Nat
deriving DecidableEq

/-- A region (`metapb.Region`): key range and replica set. -/
structure Region where
  regionId : Nat
  startKey : List Nat
  endKey : List Nat
  peers : List Peer
deriving DecidableEq

/-- A request queued at the rpc worker: `*tsoRequest` or `*regionRequest`. -/
inductive ClientReq where
  | tso
  | region (key : List Nat)
deriving DecidableEq

/-- A framed message written on the worker connection. -/
inductive WireMsg where
  | tsoReq (number : Nat)
  | getMetaReq (key : List Nat)
deriving DecidableEq

/-- Client-side rpc errors, one per `errors.*` site in `src/unnamed/part_000`. -/
inductive RpcErr where
  | rpcFailed
  | tsoFieldNotSet
  | tsoLengthIncorrect
  | getMetaFieldNotSet
  | regionFieldNotSet
  | stopped
deriving DecidableEq

/-- Result of reading one framed response from the wire: an I/O failure (a
failed write is reported the same way), or the decoded body. -/
inductive WireRead (α : Type) where
  | ioErr
  | got (a : α)
deriving DecidableEq

/-- Embeds `(*rpcWorker).getTSFromRemote` from `src/unnamed/part_000`: one
`TsoRequest` with `number = n` is always written; the read result is the
oracle `read`, where the decoded body carries the optional `Tso` field with its
timestamp list.  The first component is the message written, the second the
returned value: an error unless the `Tso` field is set and carries exactly `n`
timestamps. -/
def getTSFromRemote (n : Nat) (read : WireRead (Option (List Timestamp))) :
    WireMsg × Except RpcErr (List Timestamp) :=
  (WireMsg.tsoReq n,
   match read with
   | .ioErr => .error .rpcFailed
   | .got none => .error .tsoFieldNotSet
   | .got (some ts) => if ts.length ≠ n then .error .tsoLengthIncorrect else .ok ts)

/-- Embeds `(*rpcWorker).getRegionFromRemote` from `src/unnamed/part_000`: one
`GetMeta` request for `key` is written; the decoded body carries the optional
`GetMeta` field, itself carrying the optional `Region` field. -/
def getRegionFromRemote (key : List Nat) (read : WireRead (Option (Option Region))) :
    WireMsg × Except RpcErr Region :=
  (WireMsg.getMetaReq key,
   match read with
   | .ioErr => .error .rpcFailed
   | .got none => .error .getMetaFieldNotSet
   | .got (some none) => .error .regionFieldNotSet
   | .got (some (some r)) => .ok r)

/-- Completion delivered on a request's `done` channel, together with the
result fields filled in on success. -/
inductive Completion where
  | tsoOk (physical logical : Int)
  | regionOk (r : Region)
  | failed (e : RpcErr)
deriving DecidableEq

/-- Whether a queued request is a timestamp request. -/
def isTsoReq : ClientReq → Bool
  | .tso => true
  | .region _ => false

/-- Whether a wire message is a `Tso` request. -/
def isTsoMsg : WireMsg → Bool
  | .tsoReq _ => true
  | .getMetaReq _ => false

/-- Number of timestamp requests in a batch (`len(tsoRequests)`). -/
def countTso (batch : List ClientReq) : Nat :=
  (batch.filter isTsoReq).length

/-- First loop of `(*rpcWorker).handleRequests`: region requests are served
inline in batch order (the `idx`-th region call reads `regionRead idx`), while
timestamp requests are only collected (their completion slot stays `none`).
Returns the messages written, the per-request completion slots in batch order,
and the `ok` flag as left by this loop. -/
def regionPhase (regionRead : Nat → WireRead (Option (Option Region))) :
    List ClientReq → Nat → List WireMsg × List (ClientReq × Option Completion) × Bool
  | [], _ => ([], [], true)
  | .tso :: rest, idx =>
    let r := regionPhase regionRead rest idx
    (r.1, (ClientReq.tso, none) :: r.2.1, r.2.2)
  | .region key :: rest, idx =>
    let call := getRegionFromRemote key (regionRead idx)
    let r := regionPhase regionRead rest (idx + 1)
    match call.2 with
    | .error e => (call.1 :: r.1, (ClientReq.region key, some (.failed e)) :: r.2.1, false)
    | .ok reg => (call.1 :: r.1, (ClientReq.region key, some (.regionOk reg)) :: r.2.1, r.2.2)

/-- Second loop of `(*rpcWorker).handleRequests`: the `i`-th collected
timestamp request receives the `i`-th returned timestamp on success, or the
shared error of the `Tso` call on failure. -/
def fillTso (res : Except RpcErr (List Timestamp)) :
    List (ClientReq × Option Completion) → Nat → List (ClientReq × Completion)
  | [], _ => []
  | (r, some c) :: rest, i => (r, c) :: fillTso res rest i
  | (r, none) :: rest, i =>
    match res with
    | .error e => (r, .failed e) :: fillTso res rest (i + 1)
    | .ok ts =>
      let t := ts.getD i { physical := 0, logical := 0 }
      (r, .tsoOk t.physical t.logical) :: fillTso res rest (i + 1)

/-- Result of one `(*rpcWorker).handleRequests` call: the framed messages
written on the connection in order, the completion of every request of the
batch (in batch order), and the boolean the function returns (`false` poisons
the connection). -/
structure BatchResult where
  sent : List WireMsg
  comps : List (ClientReq × Completion)
  ok : Bool
deriving DecidableEq

/-- Embeds `(*rpcWorker).handleRequests` from `src/unnamed/part_000`: the first
loop serves region requests inline and collects timestamp requests; then
`getTSFromRemote` is called with `len(tsoRequests)` — unconditionally, whether
or not the batch contains any timestamp request — and its result is
distributed over the collected timestamp requests in order. -/
def handleRequests (regionRead : Nat → WireRead (Option (Option Region)))
    (tsoRead : WireRead (Option (List Timestamp))) (batch : List ClientReq) :
    BatchResult :=
  let r := regionPhase regionRead batch 0
  let tsoCall := getTSFromRemote (countTso batch) tsoRead
  let ok := match tsoCall.2 with
    | .error _ => false
    | .ok _ => r.2.2
  { sent := r.1 ++ [tsoCall.1], comps := fillTso tsoCall.2 r.2.1 0, ok := ok }

/-- State of the rpc worker visible to `stop`: whether the `quit` channel has
been closed, whether the worker goroutine has returned (observed by
`wg.Wait()`), and the requests still queued in the bounded FIFO. -/
structure WorkerState where
  quitClosed : Bool
  workerExited : Bool
  queued : List ClientReq
deriving DecidableEq

/-- Drain loop of `(*rpcWorker).stop`: `len(w.requests)` requests are received
and each `done` channel is sent the supplied error, for both request kinds. -/
def drainLoop (e : RpcErr) : List ClientReq → List (ClientReq × RpcErr)
  | [] => []
  | .tso :: rest => (ClientReq.tso, e) :: drainLoop e rest
  | .region key :: rest => (ClientReq.region key, e) :: drainLoop e rest

/-- Embeds `(*rpcWorker).stop` from `src/unnamed/part_000`: the `quit` channel
is closed, `wg.Wait()` returns once the worker goroutine has exited, and then
the queue is drained, failing every queued request with the supplied error.
Returns the final worker state and the completions delivered by the drain. -/
def stop (e : RpcErr) (w : WorkerState) : WorkerState × List (ClientReq × RpcErr) :=
  ({ quitClosed := true, workerExited := true, queued := [] }, drainLoop e w.queued)

end PD

namespace PD

/-! Job store and cluster worker (`src/server/cluster_worker.go`). -/

/-- Job status (`pd_jobpd.JobStatus`). -/
inductive JobStatus where
  | Pending
  | Running
deriving DecidableEq

/-- Admin command type carried by a job request (`raft_cmdpb.AdminCommandType`).
The `InvalidAdmin` value stands for every value that is neither `ChangePeer`
nor `Split` (the dispatch in `handleJob` sends those to its `default` case). -/
inductive AdminCmdType where
  | InvalidAdmin
  | ChangePeer
  | Split
deriving DecidableEq

/-- An admin request (`raft_cmdpb.AdminRequest`); only the command type is
relevant to the dispatch. -/
structure AdminRequest where
  cmdType : Option AdminCmdType
deriving DecidableEq

/-- A raft command request header (`raft_cmdpb.RaftRequestHeader`). -/
structure RaftRequestHeader where
  regionId : Nat
  peer : Option Peer
deriving DecidableEq

/-- A raft command request (`raft_cmdpb.RaftCommandRequest`); fields are
pointers in Go, hence `Option`. -/
structure RaftCommandRequest where
  header : Option RaftRequestHeader
  adminRequest : Option AdminRequest
deriving DecidableEq

/-- A durable job (`pd_jobpd.Job`); `status` and `request` are proto2 optional
fields. -/
structure Job where
  jobId : Nat
  status : Option JobStatus
  request : Option RaftCommandRequest
deriving DecidableEq

/-- Errors of the job-store operations: `leaderLost` is the error returned when
the transaction's leader-lease comparison fails (`!resp.Succeeded`). -/
inductive JobErr where
  | leaderLost
  | storeUnavailable
deriving DecidableEq

/-- Go computation result: a nil-pointer-dereference panic, an error, or a
value. -/
inductive GoResult (ε α : Type) where
  | panics
  | err (e : ε)
  | ok (a : α)
deriving DecidableEq

/-- Generated proto2 getter `(*Job).GetStatus`: nil-safe on the receiver and on
the unset field, returning the enum default `dflt`. -/
def jobGetStatus (dflt : JobStatus) : Option Job → JobStatus
  | none => dflt
  | some j => j.status.getD dflt

/-- Generated proto2 getter `(*Job).GetRequest`: nil-safe, returns the request
pointer (nil when the receiver or the field is nil). -/
def jobGetRequest : Option Job → Option RaftCommandRequest
  | none => none
  | some j => j.request

/-- Generated proto2 getter `(*AdminRequest).GetCmdType`: nil-safe, returning
the enum default `InvalidAdmin` when the receiver or the field is unset. -/
def adminGetCmdType : Option AdminRequest → AdminCmdType
  | none => .InvalidAdmin
  | some a => a.cmdType.getD .InvalidAdmin

/-- Modelled from the spec: `makeJobKey` (defined outside `src/`) formats the
job id into a fixed-width key so that ascending key order equals ascending id
order; the job with the smallest id is therefore the first of the range scan. -/
def minIdJob : List Job → Option Job
  | [] => none
  | j :: rest =>
    match minIdJob rest with
    | none => some j
    | some k => if j.jobId ≤ k.jobId then some j else some k

/-- Embeds `(*raftCluster).getJob` from `src/server/cluster_worker.go`.
Modelled from the spec for the missing helper: `getProtoMsg` (defined outside
`src/`) performs a plain, unconditional etcd range read (ascending, limit 1)
with no transaction and no leader-lease comparison; `getJob` therefore takes
no leadership input at all and returns the least-id job, or `none` when the
store is empty. -/
def getJob (jobs : List Job) : Except JobErr (Option Job) :=
  .ok (minIdJob jobs)

/-- Embeds `(*raftCluster).postJob` from `src/server/cluster_worker.go` after a
successful id allocation: the new `(jobId, Pending, request)` job is written in
a transaction guarded only by the leader-lease comparison (`leaderOk`); a
failed comparison yields the leader-lost error and writes nothing. -/
def postJob (leaderOk : Bool) (jobs : List Job) (jobId : Nat)
    (req : RaftCommandRequest) : GoResult JobErr (List Job) :=
  let job : Job := { jobId := jobId, status := some .Pending, request := some req }
  if leaderOk then .ok (jobs ++ [job]) else .err .leaderLost

/-- Embeds `(*raftCluster).updateJobStatus` from `src/server/cluster_worker.go`:
the job's status field is assigned through the pointer (`job.Status = ...` — a
nil-pointer dereference when `job` is nil), then the re-marshalled job is
written in a transaction guarded only by the leader-lease comparison; a failed
comparison yields the leader-lost error. -/
def updateJobStatus (leaderOk : Bool) (job : Option Job) (st : JobStatus) :
    GoResult JobErr Job :=
  match job with
  | none => .panics
  | some j =>
    let j2 := { j with status := some st }
    if leaderOk then .ok j2 else .err .leaderLost

/-- Embeds `(*raftCluster).popJob` from `src/server/cluster_worker.go`: the
job's key is deleted in a transaction guarded only by the leader-lease
comparison; a failed comparison yields the leader-lost error. -/
def popJob (leaderOk : Bool) (jobs : List Job) (job : Job) :
    GoResult JobErr (List Job) :=
  if leaderOk then .ok (jobs.filter (fun j => j.jobId ≠ job.jobId))
  else .err .leaderLost

/-- Embeds `(*raftCluster).handleJob` from `src/server/cluster_worker.go` over
a possibly-nil job pointer, with the dispatched handlers' outcomes supplied as
oracles `chg` and `spl`.  `dflt` is the proto2 enum default returned by
`GetStatus` on a nil receiver.  When the status reads `Pending`, the status is
first persisted as `Running` via `updateJobStatus` (which dereferences a nil
job); then `req := job.GetRequest()` is read and `req.AdminRequest` is accessed
— a field access through the `req` pointer, which panics when `req` is nil —
and the command type is dispatched. -/
def handleJob (dflt : JobStatus) (leaderOk : Bool) (chg spl : GoResult JobErr Unit)
    (job : Option Job) : GoResult JobErr Unit :=
  let dispatch : Option Job → GoResult JobErr Unit := fun job1 =>
    match jobGetRequest job1 with
    | none => .panics
    | some req =>
      match adminGetCmdType req.adminRequest with
      | .ChangePeer => chg
      | .Split => spl
      | .InvalidAdmin => .ok ()
  if jobGetStatus dflt job = .Pending then
    match updateJobStatus leaderOk job .Running with
    | .panics => .panics
    | .err e => .err e
    | .ok j2 => dispatch (some j2)
  else
    dispatch job

/-- Outcome of one `askJobCh` iteration of `(*raftCluster).onJobWorker`. -/
inductive IterOutcome where
  | notLeader
  | noJob
  | handled (r : GoResult JobErr Unit)
deriving DecidableEq

/-- Embeds one `askJobCh` iteration of `(*raftCluster).onJobWorker` from
`src/server/cluster_worker.go`: when not leader the pulse is ignored; when
`getJob` returns an error the code only logs it and falls through to
`handleJob` with the nil `job` pointer (there is no `continue` on that branch);
when `getJob` returns no job the iteration waits; otherwise the job is
handled. -/
def onJobWorkerIter (isLeader : Bool) (getJobRes : Except JobErr (Option Job))
    (handle : Option Job → GoResult JobErr Unit) : IterOutcome :=
  if isLeader then
    match getJobRes with
    | .error _ => .handled (handle none)
    | .ok none => .noJob
    | .ok (some j) => .handled (handle (some j))
  else .notLeader

/-- Inner loop of `(*raftCluster).handleAddPeerReq` over the peers of the
region for one store: returns `(existNode, existStore)`.  The Go loop breaks as
soon as a peer's store matches (leaving `existNode` as accumulated so far,
which is irrelevant since the store is then skipped); otherwise a matching node
id sets `existNode`. -/
def scanPeers (storeID nodeID : Nat) : List Peer → Bool × Bool
  | [] => (false, false)
  | p :: rest =>
    if p.storeId = storeID then (false, true)
    else
      let r := scanPeers storeID nodeID rest
      ((p.nodeId = nodeID : Bool) || r.1, r.2)

/-- Classification loop of `(*raftCluster).handleAddPeerReq`: every store with
a peer of the region on it is skipped; of the rest, stores sharing a node with
an existing peer go to `matchStores`, the others to `bestStores`; both keep the
iteration order of `stores`. -/
def collectStores (peers : List Peer) : List Store → List Store × List Store
  | [] => ([], [])
  | s :: rest =>
    let scan := scanPeers s.storeId s.nodeId peers
    let r := collectStores peers rest
    if scan.2 then r
    else if scan.1 then (r.1, s :: r.2)
    else (s :: r.1, r.2)

/-- Embeds `(*raftCluster).chooseStore` from `src/server/cluster_worker.go`:
a random pick (`rand.Intn`, supplied as `r`) from `bestStores` when nonempty,
otherwise from `matchStores`.  The Go code is only called when at least one of
the two is nonempty; the `getD` default is unreachable there. -/
def chooseStore (r : Nat) (bestStores matchStores : List Store) : Store :=
  if 0 < bestStores.length then
    bestStores.getD (r % bestStores.length) { storeId := 0, nodeId := 0 }
  else
    matchStores.getD (r % matchStores.length) { storeId := 0, nodeId := 0 }

/-- Error of `handleAddPeerReq` when every store already carries a peer. -/
inductive AddPeerErr where
  | noStoreToAddPeer
deriving DecidableEq

/-- Embeds `(*raftCluster).handleAddPeerReq` from
`src/server/cluster_worker.go` after a successful id allocation (`peerID`),
with the cluster's store table `stores` (map iteration order is arbitrary in
Go, so any order may be supplied) and the region's peers `peers`; `r` stands
for the `rand.Intn` draw of `chooseStore`. -/
def handleAddPeerReq (peerID r : Nat) (stores : List Store) (peers : List Peer) :
    Except AddPeerErr Peer :=
  let c := collectStores peers stores
  if c.1.length = 0 ∧ c.2.length = 0 then .error .noStoreToAddPeer
  else
    let s := chooseStore r c.1 c.2
    .ok { peerId := peerID, nodeId := s.nodeId, storeId := s.storeId }

/-- A `NotLeader` error in a raft response header
(`errorpb`-style, carried by `raft_cmdpb.RaftResponseHeader.Error`). -/
structure NotLeaderErr where
  regionId : Nat
  leader : Option Peer
deriving DecidableEq

/-- The error of a raft response header; only the `NotLeader` member is
relevant to `sendRaftCommand`. -/
structure RespError where
  notLeader : Option NotLeaderErr
deriving DecidableEq

/-- A raft command response header. -/
structure RaftResponseHeader where
  error : Option RespError
deriving DecidableEq

/-- A raft command response (`raft_cmdpb.RaftCommandResponse`); its header is a
pointer in Go. -/
structure RaftCommandResponse where
  header : Option RaftResponseHeader
deriving DecidableEq

/-- Errors of `sendRaftCommand`: a propagated `callCommand` failure, or retry
exhaustion after `maxSendRetry` attempts. -/
inductive SendErr where
  | network
  | retryExhausted
deriving DecidableEq

/-- Leader probe of `sendRaftCommand` (the inner loop over `region.Peers`): the
peer equal to the origin peer is skipped; for the others, `getRegionLeader`
(oracle `probe`) is consulted in order; an error or a nil leader means try the
next peer; the first reported leader is returned. -/
def findNewLeader (probe : Peer → Except Unit (Option Peer)) (originPeerId : Nat) :
    List Peer → Option Peer
  | [] => none
  | p :: rest =>
    if p.peerId = originPeerId then findNewLeader probe originPeerId rest
    else
      match probe p with
      | .error _ => findNewLeader probe originPeerId rest
      | .ok none => findNewLeader probe originPeerId rest
      | .ok (some l) => some l

/-- Retry loop of `(*raftCluster).sendRaftCommand` from
`src/server/cluster_worker.go`, with `fuel` remaining attempts (the Go loop
runs `maxSendRetry` times).  `call fuel peer` is the `callCommand` round trip
of this attempt, `probe fuel` this attempt's `getRegionLeader` oracle.  A
`callCommand` error is propagated.  Otherwise `resp.Header.Error` is read — a
field access through the header pointer, panicking when the header is nil.
When a `NotLeader` error carries a leader hint the request is re-targeted at
it; when it carries none, the other peers of the region are probed, a
discovered leader is retried — and when none is discovered the loop falls out
of the `if` and returns the `NotLeader`-bearing response with a nil error. -/
def sendLoop (call : Nat → Peer → Except Unit RaftCommandResponse)
    (probe : Nat → Peer → Except Unit (Option Peer))
    (region : Region) (originPeerId : Nat) :
    Nat → Peer → GoResult SendErr RaftCommandResponse
  | 0, _ => .err .retryExhausted
  | fuel + 1, peer =>
    match call (fuel + 1) peer with
    | .error _ => .err .network
    | .ok resp =>
      match resp.header with
      | none => .panics
      | some h =>
        match h.error with
        | none => .ok resp
        | some e =>
          match e.notLeader with
          | none => .ok resp
          | some nl =>
            match nl.leader with
            | some l => sendLoop call probe region originPeerId fuel l
            | none =>
              match findNewLeader (probe (fuel + 1)) originPeerId region.peers with
              | some l => sendLoop call probe region originPeerId fuel l
              | none => .ok resp

/-- Embeds `(*raftCluster).sendRaftCommand`: the origin peer is the request
header's peer at entry, and the loop runs at most `maxSendRetry` attempts. -/
def sendRaftCommand (call : Nat → Peer → Except Unit RaftCommandResponse)
    (probe : Nat → Peer → Except Unit (Option Peer))
    (region : Region) (reqPeer : Peer) : GoResult SendErr RaftCommandResponse :=
  sendLoop call probe region reqPeer.peerId maxSendRetry reqPeer

end PD

namespace PD

/-! Arithmetic helpers about Go's truncated division by `1e6`. -/

theorem tdiv_ms_nonpos_iff (x : Int) : Int.tdiv x nsPerMs ≤ 0 ↔ x < nsPerMs := by
  unfold nsPerMs
  rcases le_or_lt 0 x with hx | hx
  · rw [Int.tdiv_eq_ediv hx (by norm_num)]
    omega
  · constructor
    · intro _; omega
    · intro _
      have h1 : Int.tdiv x 1000000 = -(Int.tdiv (-x) 1000000) := by
        rw [← Int.neg_tdiv, neg_neg]
      have h2 : 0 ≤ Int.tdiv (-x) 1000000 :=
        Int.tdiv_nonneg (by omega) (by norm_num)
      omega

theorem tdiv_ms_eq_ediv (x : Int) (hx : 0 ≤ x) : Int.tdiv x nsPerMs = x / 1000000 := by
  unfold nsPerMs
  exact Int.tdiv_eq_ediv hx (by norm_num)

theorem tdiv_ms_mono {x y : Int} (hx : 0 ≤ x) (h : x ≤ y) :
    Int.tdiv x nsPerMs ≤ Int.tdiv y nsPerMs := by
  rw [tdiv_ms_eq_ediv x hx, tdiv_ms_eq_ediv y (le_trans hx h)]
  omega

theorem tdiv_ms_lt {x y : Int} (hx : 0 ≤ x) (h : x + 1000000 ≤ y) :
    Int.tdiv x nsPerMs < Int.tdiv y nsPerMs := by
  rw [tdiv_ms_eq_ediv x hx, tdiv_ms_eq_ediv y (by omega)]
  omega

theorem tdiv_zero_ms : Int.tdiv 0 nsPerMs = 0 := by decide

end PD

namespace PD

theorem updateTimestamp_cases (leaderLease now : Int) (s : TsoState) :
    (Int.tdiv (now - s.ts.physical) nsPerMs ≤ 0 ∧
       updateTimestamp leaderLease now s = s) ∨
    (0 < Int.tdiv (now - s.ts.physical) nsPerMs ∧
       Int.tdiv (now - s.lastSavedTime) nsPerMs > leaderLease * 1000 ∧
       updateTimestamp leaderLease now s =
         { ts := { physical := now, logical := 0 },
           lastSavedTime := now, savedTs := now }) ∨
    (0 < Int.tdiv (now - s.ts.physical) nsPerMs ∧
       Int.tdiv (now - s.lastSavedTime) nsPerMs ≤ leaderLease * 1000 ∧
       updateTimestamp leaderLease now s =
         { ts := { physical := now, logical := 0 },
           lastSavedTime := s.lastSavedTime, savedTs := s.savedTs }) := by
  unfold updateTimestamp saveTimestamp
  by_cases h1 : Int.tdiv (now - s.ts.physical) nsPerMs ≤ 0
  · left; exact ⟨h1, by simp [h1]⟩
  · by_cases h2 : Int.tdiv (now - s.lastSavedTime) nsPerMs > leaderLease * 1000
    · right; left
      refine ⟨by omega, h2, ?_⟩
      simp [h1, h2]
    · right; right
      refine ⟨by omega, by omega, ?_⟩
      simp [h1, h2]

end PD

namespace PD

theorem getRespTS_cases (s : TsoState) :
    (maxLogical ≤ s.ts.logical + 1 ∧ getRespTS s = none) ∨
    (s.ts.logical + 1 < maxLogical ∧
       getRespTS s =
         some ({ physical := Int.tdiv s.ts.physical nsPerMs,
                 logical := s.ts.logical + 1 },
               { s with ts := { s.ts with logical := s.ts.logical + 1 } })) := by
  unfold getRespTS
  by_cases h : s.ts.logical + 1 ≥ maxLogical
  · left; exact ⟨h, by simp [h]⟩
  · right; exact ⟨by omega, by simp [h]⟩

theorem tsoInv_applyTsoOp (leaderLease : Int) (hLL : 0 ≤ leaderLease)
    (s : TsoState) (op : TsoOp) (h : TsoInv leaderLease s) :
    TsoInv leaderLease (applyTsoOp leaderLease s op).1 := by
  obtain ⟨hls, hs0, hsp, hdq⟩ := h
  cases op with
  | update now =>
    simp only [applyTsoOp]
    rcases updateTimestamp_cases leaderLease now s with ⟨_, he⟩ | ⟨h1, h2, he⟩ | ⟨h1, h2, he⟩
    · rw [he]; exact ⟨hls, hs0, hsp, hdq⟩
    · rw [he]
      have hnow : s.ts.physical + 1000000 ≤ now := by
        have := (tdiv_ms_nonpos_iff (now - s.ts.physical)).mpr
        unfold nsPerMs at *
        omega
      unfold TsoInv
      dsimp only
      refine ⟨rfl, by omega, by omega, ?_⟩
      simp only [sub_self, tdiv_zero_ms]
      omega
    · rw [he]
      have hnow : s.ts.physical + 1000000 ≤ now := by
        have := (tdiv_ms_nonpos_iff (now - s.ts.physical)).mpr
        unfold nsPerMs at *
        omega
      unfold TsoInv
      dsimp only
      exact ⟨hls, by omega, by omega, by rw [← hls]; exact h2⟩
  | getTS =>
    simp only [applyTsoOp]
    rcases getRespTS_cases s with ⟨_, he⟩ | ⟨_, he⟩
    · rw [he]; exact ⟨hls, hs0, hsp, hdq⟩
    · rw [he]; exact ⟨hls, hs0, hsp, hdq⟩

end PD

namespace PD

theorem savedTs_applyTsoOp (leaderLease : Int) (s : TsoState) (op : TsoOp)
    (h : TsoInv leaderLease s) :
    s.savedTs ≤ (applyTsoOp leaderLease s op).1.savedTs := by
  obtain ⟨hls, hs0, hsp, hdq⟩ := h
  cases op with
  | update now =>
    simp only [applyTsoOp]
    rcases updateTimestamp_cases leaderLease now s with ⟨_, he⟩ | ⟨h1, _, he⟩ | ⟨_, _, he⟩
    · rw [he]
    · rw [he]
      have hnow : s.ts.physical + 1000000 ≤ now := by
        have := (tdiv_ms_nonpos_iff (now - s.ts.physical)).mpr
        unfold nsPerMs at *
        omega
      dsimp only
      omega
    · rw [he]
  | getTS =>
    simp only [applyTsoOp]
    rcases getRespTS_cases s with ⟨_, he⟩ | ⟨_, he⟩
    · rw [he]
    · rw [he]

theorem physical_applyTsoOp (leaderLease : Int) (s : TsoState) (op : TsoOp) :
    s.ts.physical ≤ (applyTsoOp leaderLease s op).1.ts.physical := by
  cases op with
  | update now =>
    simp only [applyTsoOp]
    rcases updateTimestamp_cases leaderLease now s with ⟨_, he⟩ | ⟨h1, _, he⟩ | ⟨h1, _, he⟩
    · rw [he]
    all_goals
      rw [he]
      have hnow : s.ts.physical + 1000000 ≤ now := by
        have := (tdiv_ms_nonpos_iff (now - s.ts.physical)).mpr
        unfold nsPerMs at *
        omega
      dsimp only
      omega
  | getTS =>
    simp only [applyTsoOp]
    rcases getRespTS_cases s with ⟨_, he⟩ | ⟨_, he⟩
    · rw [he]
    · rw [he]

theorem emit_le_checkpoint (leaderLease : Int) (s : TsoState) (op : TsoOp)
    (s1 : TsoState) (t : Timestamp) (h : TsoInv leaderLease s)
    (he : applyTsoOp leaderLease s op = (s1, some t)) :
    t.physical ≤ Int.tdiv s.savedTs nsPerMs + (leaderLease * 1000 + 1) := by
  obtain ⟨hls, hs0, hsp, hdq⟩ := h
  cases op with
  | update now => simp only [applyTsoOp, Prod.mk.injEq] at he; exact absurd he.2 (by simp)
  | getTS =>
    simp only [applyTsoOp] at he
    rcases getRespTS_cases s with ⟨_, hg⟩ | ⟨_, hg⟩
    · rw [hg] at he; simp only [Prod.mk.injEq] at he; exact absurd he.2 (by simp)
    · rw [hg] at he
      simp only [Prod.mk.injEq, Option.some.injEq] at he
      have ht : t.physical = Int.tdiv s.ts.physical nsPerMs := by
        rw [← he.2]
      rw [ht]
      rw [tdiv_ms_eq_ediv _ (by omega), tdiv_ms_eq_ediv _ hs0]
      rw [tdiv_ms_eq_ediv _ (by omega)] at hdq
      omega

end PD

namespace PD

theorem tsoInv_runTsoOps (leaderLease : Int) (hLL : 0 ≤ leaderLease) :
    ∀ (ops : List TsoOp) (s : TsoState), TsoInv leaderLease s →
      TsoInv leaderLease (runTsoOps leaderLease s ops).1 := by
  intro ops
  induction ops with
  | nil => intro s h; exact h
  | cons op ops ih =>
    intro s h
    simp only [runTsoOps]
    exact ih _ (tsoInv_applyTsoOp leaderLease hLL s op h)

theorem savedTs_runTsoOps (leaderLease : Int) (hLL : 0 ≤ leaderLease) :
    ∀ (ops : List TsoOp) (s : TsoState), TsoInv leaderLease s →
      s.savedTs ≤ (runTsoOps leaderLease s ops).1.savedTs := by
  intro ops
  induction ops with
  | nil => intro s _; exact le_refl _
  | cons op ops ih =>
    intro s h
    simp only [runTsoOps]
    exact le_trans (savedTs_applyTsoOp leaderLease s op h)
      (ih _ (tsoInv_applyTsoOp leaderLease hLL s op h))

theorem issued_bound_runTsoOps (leaderLease : Int) (hLL : 0 ≤ leaderLease) :
    ∀ (ops : List TsoOp) (s : TsoState), TsoInv leaderLease s →
      ∀ t ∈ (runTsoOps leaderLease s ops).2,
        t.physical ≤ Int.tdiv (runTsoOps leaderLease s ops).1.savedTs nsPerMs +
          (leaderLease * 1000 + 1) := by
  intro ops
  induction ops with
  | nil => intro s _ t ht; exact absurd ht (by simp [runTsoOps])
  | cons op ops ih =>
    intro s h t ht
    simp only [runTsoOps, List.mem_append] at ht ⊢
    have hinv1 : TsoInv leaderLease (applyTsoOp leaderLease s op).1 :=
      tsoInv_applyTsoOp leaderLease hLL s op h
    rcases ht with ht | ht
    · have hop : (applyTsoOp leaderLease s op).2 = some t := by
        cases hv : (applyTsoOp leaderLease s op).2 with
        | none => rw [hv] at ht; exact absurd ht (by simp)
        | some u => rw [hv] at ht; simp at ht; rw [ht]
      have hb := emit_le_checkpoint leaderLease s op (applyTsoOp leaderLease s op).1 t h
        (by rw [← hop])
      have hmono : s.savedTs ≤ (runTsoOps leaderLease (applyTsoOp leaderLease s op).1 ops).1.savedTs :=
        le_trans (savedTs_applyTsoOp leaderLease s op h)
          (savedTs_runTsoOps leaderLease hLL ops _ hinv1)
      have hd : Int.tdiv s.savedTs nsPerMs ≤
          Int.tdiv (runTsoOps leaderLease (applyTsoOp leaderLease s op).1 ops).1.savedTs nsPerMs :=
        tdiv_ms_mono h.2.1 hmono
      omega
    · exact ih _ hinv1 t ht

end PD

namespace PD

theorem syncTimestamp_ok (leaderLease last : Int) :
    ∀ (nows : List Int) (s0 : TsoState),
      syncTimestamp leaderLease last nows = .ok s0 →
      s0.savedTs = s0.ts.physical ∧ s0.lastSavedTime = s0.ts.physical ∧
      s0.ts.logical = 0 ∧ last + 2 * leaderLease * 1000000000 ≤ s0.ts.physical := by
  intro nows
  induction nows with
  | nil => intro s0 h; exact absurd h (by simp [syncTimestamp])
  | cons now rest ih =>
    intro s0 h
    unfold syncTimestamp at h
    by_cases h1 : Int.tdiv (now - last) nsPerMs ≤ 0
    · simp [h1] at h
    · by_cases h2 : 2 * leaderLease * 1000 - Int.tdiv (now - last) nsPerMs > 0
      · simp [h1, h2] at h
        exact ih s0 h
      · simp [h1, h2] at h
        have hge : 1000000 ≤ now - last := by
          have := (tdiv_ms_nonpos_iff (now - last)).mpr
          unfold nsPerMs at *
          omega
        have hdiv : 2 * leaderLease * 1000 ≤ (now - last) / 1000000 := by
          rw [tdiv_ms_eq_ediv _ (by omega)] at h2
          omega
        have hns : 2 * leaderLease * 1000000000 ≤ now - last := by
          omega
        rw [← h]
        refine ⟨rfl, rfl, rfl, ?_⟩
        dsimp only
        omega

theorem syncTimestamp_inv (leaderLease last : Int) (hLL : 0 ≤ leaderLease)
    (hlast : 0 ≤ last) (nows : List Int) (s0 : TsoState)
    (h : syncTimestamp leaderLease last nows = .ok s0) :
    TsoInv leaderLease s0 := by
  obtain ⟨h1, h2, h3, h4⟩ := syncTimestamp_ok leaderLease last nows s0 h
  refine ⟨h2.trans h1.symm, ?_, by omega, ?_⟩
  · have : 0 ≤ 2 * leaderLease * 1000000000 := by positivity
    omega
  · rw [h1, sub_self, tdiv_zero_ms]
    positivity

end PD

namespace PD

/-- C1 counterexample: the claim that an issued physical never exceeds the
persisted checkpoint is false.  With `LeaderLease = 1` second, the leader syncs
at 2000 ms (checkpoint 2000000000 ns), one 10 ms tick later `updateTimestamp`
advances the in-memory physical to 2010 ms without saving (only 10 ms < 1000 ms
have passed since the last save), and `getRespTS` issues physical 2010 ms while
the checkpoint still holds 2000 ms. -/
theorem tso_checkpoint_bound_counterexample :
    syncTimestamp 1 0 [2000000000] =
      .ok { ts := { physical := 2000000000, logical := 0 },
            lastSavedTime := 2000000000, savedTs := 2000000000 } ∧
    runTsoOps 1 { ts := { physical := 2000000000, logical := 0 },
                  lastSavedTime := 2000000000, savedTs := 2000000000 }
        [.update 2010000000, .getTS] =
      ({ ts := { physical := 2010000000, logical := 1 },
         lastSavedTime := 2000000000, savedTs := 2000000000 },
       [{ physical := 2010, logical := 1 }]) ∧
    ¬ ((2010 : Int) ≤ Int.tdiv 2000000000 nsPerMs) := by
  refine ⟨by decide, by decide, by decide⟩

/-- C1 amended: an issued physical may exceed the persisted checkpoint, but by
at most `LeaderLease` seconds (plus one millisecond of truncation): along any
run from a synced state, every issued timestamp satisfies
`physical <= checkpoint_ms + leaderLease*1000 + 1`, where the checkpoint is the
value most recently persisted by `saveTimestamp` (updateTimestamp persists the
current wall clock, not a value ahead of it, and only when more than
`LeaderLease` has elapsed since the last save). -/
theorem tso_issued_physical_within_lease_of_checkpoint
    (leaderLease last : Int) (nows : List Int) (s0 : TsoState)
    (ops : List TsoOp) (sf : TsoState) (issued : List Timestamp)
    (hLL : 0 ≤ leaderLease) (hlast : 0 ≤ last)
    (hsync : syncTimestamp leaderLease last nows = .ok s0)
    (hrun : runTsoOps leaderLease s0 ops = (sf, issued)) :
    ∀ t ∈ issued,
      t.physical ≤ Int.tdiv sf.savedTs nsPerMs + (leaderLease * 1000 + 1) := by
  intro t ht
  have hinv := syncTimestamp_inv leaderLease last hLL hlast nows s0 hsync
  have := issued_bound_runTsoOps leaderLease hLL ops s0 hinv t (by rw [hrun]; exact ht)
  rw [hrun] at this
  exact this

/-- C1 witness: a synced run with `leaderLease = 0` issuing one timestamp,
within the amended bound. -/
theorem tso_issued_physical_within_lease_of_checkpoint_witness :
    ({ physical := 1, logical := 1 } : Timestamp).physical ≤
      Int.tdiv 1000000 nsPerMs + (0 * 1000 + 1) :=
  tso_issued_physical_within_lease_of_checkpoint 0 0 [1000000]
    { ts := { physical := 1000000, logical := 0 },
      lastSavedTime := 1000000, savedTs := 1000000 }
    [.getTS]
    { ts := { physical := 1000000, logical := 1 },
      lastSavedTime := 1000000, savedTs := 1000000 }
    [{ physical := 1, logical := 1 }]
    (by decide) (by decide) (by decide) (by decide)
    { physical := 1, logical := 1 } (by decide)

end PD

namespace PD

theorem dominates_applyTsoOp (leaderLease : Int) (s : TsoState) (op : TsoOp)
    (t0 : Timestamp) (hphys : 0 ≤ s.ts.physical) (h : Dominates s t0) :
    Dominates (applyTsoOp leaderLease s op).1 t0 := by
  cases op with
  | update now =>
    simp only [applyTsoOp]
    rcases updateTimestamp_cases leaderLease now s with ⟨_, he⟩ | ⟨h1, _, he⟩ | ⟨h1, _, he⟩
    · rw [he]; exact h
    all_goals
      rw [he]
      have hnow : s.ts.physical + 1000000 ≤ now := by
        have := (tdiv_ms_nonpos_iff (now - s.ts.physical)).mpr
        unfold nsPerMs at *
        omega
      have hlt := tdiv_ms_lt hphys hnow
      unfold Dominates at h ⊢
      dsimp only
      omega
  | getTS =>
    simp only [applyTsoOp]
    rcases getRespTS_cases s with ⟨_, he⟩ | ⟨_, he⟩
    · rw [he]; exact h
    · rw [he]
      unfold Dominates at h ⊢
      dsimp only
      omega

theorem emit_dominates (leaderLease : Int) (s s1 : TsoState) (t : Timestamp)
    (he : applyTsoOp leaderLease s .getTS = (s1, some t)) :
    (∀ t0, Dominates s t0 → tsLexLt t0 t) ∧ Dominates s1 t := by
  simp only [applyTsoOp] at he
  rcases getRespTS_cases s with ⟨_, hg⟩ | ⟨_, hg⟩
  · rw [hg] at he; simp only [Prod.mk.injEq] at he; exact absurd he.2 (by simp)
  · rw [hg] at he
    simp only [Prod.mk.injEq, Option.some.injEq] at he
    obtain ⟨hs1, ht⟩ := he
    constructor
    · intro t0 h0
      unfold Dominates at h0
      unfold tsLexLt
      rw [← ht]
      dsimp only
      omega
    · unfold Dominates
      rw [← hs1, ← ht]
      dsimp only
      omega

theorem pairwise_runTsoOps (leaderLease : Int) (hLL : 0 ≤ leaderLease) :
    ∀ (ops : List TsoOp) (s : TsoState), TsoInv leaderLease s →
      List.Pairwise tsLexLt (runTsoOps leaderLease s ops).2 ∧
      ∀ t0, Dominates s t0 →
        ∀ t ∈ (runTsoOps leaderLease s ops).2, tsLexLt t0 t := by
  intro ops
  induction ops with
  | nil =>
    intro s _
    refine ⟨by simp [runTsoOps], ?_⟩
    intro t0 _ t ht
    exact absurd ht (by simp [runTsoOps])
  | cons op ops ih =>
    intro s hinv
    have hinv1 : TsoInv leaderLease (applyTsoOp leaderLease s op).1 :=
      tsoInv_applyTsoOp leaderLease hLL s op hinv
    have hphys : 0 ≤ s.ts.physical := le_trans hinv.2.1 hinv.2.2.1
    obtain ⟨ihp, ihd⟩ := ih (applyTsoOp leaderLease s op).1 hinv1
    simp only [runTsoOps]
    cases hv : (applyTsoOp leaderLease s op).2 with
    | none =>
      simp only [hv, Option.toList_none, List.nil_append]
      refine ⟨ihp, ?_⟩
      intro t0 h0 t ht
      exact ihd t0 (dominates_applyTsoOp leaderLease s op t0 hphys h0) t ht
    | some u =>
      have hop : op = TsoOp.getTS := by
        cases op with
        | update now => simp [applyTsoOp] at hv
        | getTS => rfl
      subst hop
      have he : applyTsoOp leaderLease s .getTS = ((applyTsoOp leaderLease s .getTS).1, some u) := by
        rw [← hv]
      obtain ⟨hemit, hdom⟩ := emit_dominates leaderLease s _ u he
      simp only [hv, Option.toList_some, List.singleton_append]
      constructor
      · refine List.Pairwise.cons ?_ ihp
        intro t ht
        exact ihd u hdom t ht
      · intro t0 h0 t ht
        simp only [List.mem_cons] at ht
        rcases ht with ht | ht
        · rw [ht]; exact hemit t0 h0
        · exact ihd t0 (dominates_applyTsoOp leaderLease s _ t0 hphys h0) t ht

end PD

namespace PD

/-- C2: within one leader, the issued timestamps are strictly increasing in
lexicographic order on `(physical, logical)`: along any run from a synced
state, the issue-ordered list of `getRespTS` results is pairwise `tsLexLt`;
moreover `updateTimestamp` either leaves the stored physical unchanged or
strictly increases it (it never stores a physical less than or equal to the
previous one). -/
theorem tso_issued_timestamps_strictly_increasing
    (leaderLease last : Int) (nows : List Int) (s0 : TsoState)
    (ops : List TsoOp) (sf : TsoState) (issued : List Timestamp)
    (hLL : 0 ≤ leaderLease) (hlast : 0 ≤ last)
    (hsync : syncTimestamp leaderLease last nows = .ok s0)
    (hrun : runTsoOps leaderLease s0 ops = (sf, issued)) :
    List.Pairwise tsLexLt issued ∧
    ∀ (now : Int) (s : TsoState),
      (updateTimestamp leaderLease now s).ts.physical = s.ts.physical ∨
      s.ts.physical < (updateTimestamp leaderLease now s).ts.physical := by
  constructor
  · have hinv := syncTimestamp_inv leaderLease last hLL hlast nows s0 hsync
    have := (pairwise_runTsoOps leaderLease hLL ops s0 hinv).1
    rw [hrun] at this
    exact this
  · intro now s
    rcases updateTimestamp_cases leaderLease now s with ⟨_, he⟩ | ⟨h1, _, he⟩ | ⟨h1, _, he⟩
    · rw [he]; left; rfl
    all_goals
      rw [he]
      right
      have hnow : s.ts.physical + 1000000 ≤ now := by
        have := (tdiv_ms_nonpos_iff (now - s.ts.physical)).mpr
        unfold nsPerMs at *
        omega
      dsimp only
      omega

/-- C2 witness: a concrete synced run issuing two timestamps under one
physical, strictly increasing. -/
theorem tso_issued_timestamps_strictly_increasing_witness :
    List.Pairwise tsLexLt
      ([{ physical := 1, logical := 1 }, { physical := 1, logical := 2 }] : List Timestamp) :=
  (tso_issued_timestamps_strictly_increasing 0 0 [1000000]
    { ts := { physical := 1000000, logical := 0 },
      lastSavedTime := 1000000, savedTs := 1000000 }
    [.getTS, .getTS]
    { ts := { physical := 1000000, logical := 2 },
      lastSavedTime := 1000000, savedTs := 1000000 }
    [{ physical := 1, logical := 1 }, { physical := 1, logical := 2 }]
    (by decide) (by decide) (by decide) (by decide)).1

end PD

namespace PD

theorem issued_phys_lb_runTsoOps (leaderLease : Int) :
    ∀ (ops : List TsoOp) (s : TsoState), 0 ≤ s.ts.physical →
      ∀ t ∈ (runTsoOps leaderLease s ops).2,
        Int.tdiv s.ts.physical nsPerMs ≤ t.physical := by
  intro ops
  induction ops with
  | nil => intro s _ t ht; exact absurd ht (by simp [runTsoOps])
  | cons op ops ih =>
    intro s hphys t ht
    simp only [runTsoOps, List.mem_append] at ht
    have hple := physical_applyTsoOp leaderLease s op
    rcases ht with ht | ht
    · have hop : op = TsoOp.getTS := by
        cases hv : (applyTsoOp leaderLease s op).2 with
        | none => rw [hv] at ht; exact absurd ht (by simp)
        | some u =>
          cases op with
          | update now => simp [applyTsoOp] at hv
          | getTS => rfl
      subst hop
      simp only [applyTsoOp] at ht
      rcases getRespTS_cases s with ⟨_, hg⟩ | ⟨_, hg⟩
      · rw [hg] at ht; exact absurd ht (by simp)
      · rw [hg] at ht
        simp only [Option.toList_some, List.mem_singleton] at ht
        rw [ht]
    · exact le_trans (tdiv_ms_mono hphys hple)
        (ih (applyTsoOp leaderLease s op).1 (le_trans hphys hple) t ht)

/-- C3 counterexample: the claim that `syncTimestamp` busy-waits (does not
fail) when `now <= S` is false.  With checkpoint `S = 1000000` ns and a first
wall-clock reading equal to `S`, the code returns the
`"now <= last saved time"` error immediately instead of waiting (a later
reading large enough to satisfy the wait is never consulted). -/
theorem syncTimestamp_behind_clock_fails_counterexample :
    syncTimestamp 1 1000000 [1000000, 5000000000] = .errBehind := by
  decide

/-- C3 amended: at leader start `syncTimestamp` loads the checkpoint `S` (0 if
absent); when `now <= S` (indeed whenever `(now-S)/1e6 <= 0`) it fails with an
error rather than busy-waiting; it sleeps and retries exactly while
`0 < (now-S)/1e6 < 2*LeaderLease*1000`; on success it persists `now` under the
leader-lease conditional write, seeds `(physical = now, logical = 0)` with
`now >= S + 2*LeaderLease*1e9` ns, and consequently every physical issued by
that leader is at least `S_ms + 2*LeaderLease*1000`. -/
theorem syncTimestamp_characterization (leaderLease last : Int)
    (hLL : 0 ≤ leaderLease) (hlast : 0 ≤ last) :
    (∀ (now : Int) (rest : List Int), now ≤ last →
       syncTimestamp leaderLease last (now :: rest) = .errBehind) ∧
    (∀ (now : Int) (rest : List Int), 0 < Int.tdiv (now - last) nsPerMs →
       Int.tdiv (now - last) nsPerMs < 2 * leaderLease * 1000 →
       syncTimestamp leaderLease last (now :: rest) =
         syncTimestamp leaderLease last rest) ∧
    (∀ (nows : List Int) (s0 : TsoState),
       syncTimestamp leaderLease last nows = .ok s0 →
       s0.savedTs = s0.ts.physical ∧ s0.lastSavedTime = s0.ts.physical ∧
       s0.ts.logical = 0 ∧ last + 2 * leaderLease * 1000000000 ≤ s0.ts.physical ∧
       ∀ (ops : List TsoOp) (sf : TsoState) (issued : List Timestamp),
         runTsoOps leaderLease s0 ops = (sf, issued) →
         ∀ t ∈ issued,
           Int.tdiv last nsPerMs + 2 * leaderLease * 1000 ≤ t.physical) := by
  refine ⟨?_, ?_, ?_⟩
  · intro now rest hle
    unfold syncTimestamp
    have : Int.tdiv (now - last) nsPerMs ≤ 0 := by
      rw [tdiv_ms_nonpos_iff]
      unfold nsPerMs
      omega
    simp [this]
  · intro now rest h1 h2
    have hn1 : ¬ Int.tdiv (now - last) nsPerMs ≤ 0 := by omega
    have hn2 : 2 * leaderLease * 1000 - Int.tdiv (now - last) nsPerMs > 0 := by omega
    conv_lhs => rw [syncTimestamp]
    simp [hn1, hn2]
  · intro nows s0 h
    obtain ⟨h1, h2, h3, h4⟩ := syncTimestamp_ok leaderLease last nows s0 h
    refine ⟨h1, h2, h3, h4, ?_⟩
    intro ops sf issued hrun t ht
    have hphys0 : 0 ≤ s0.ts.physical := by
      have : 0 ≤ 2 * leaderLease * 1000000000 := by positivity
      omega
    have hlb := issued_phys_lb_runTsoOps leaderLease ops s0 hphys0 t (by rw [hrun]; exact ht)
    have hdd : Int.tdiv last nsPerMs + 2 * leaderLease * 1000 ≤
        Int.tdiv s0.ts.physical nsPerMs := by
      rw [tdiv_ms_eq_ediv _ hlast, tdiv_ms_eq_ediv _ hphys0]
      omega
    omega

/-- C3 witness: the failing branch of the characterization at `S = 0`,
`now = 0`. -/
theorem syncTimestamp_characterization_witness :
    syncTimestamp 0 0 ((0 : Int) :: [1000000]) = .errBehind :=
  (syncTimestamp_characterization 0 0 (by decide) (by decide)).1 0 [1000000] (by decide)

end PD

namespace PD

theorem regionPhase_no_tso_msg (regionRead : Nat → WireRead (Option (Option Region))) :
    ∀ (batch : List ClientReq) (idx : Nat),
      (regionPhase regionRead batch idx).1.filter isTsoMsg = [] := by
  intro batch
  induction batch with
  | nil => intro idx; simp [regionPhase]
  | cons req rest ih =>
    intro idx
    cases req with
    | tso => simpa [regionPhase] using ih idx
    | region key =>
      simp only [regionPhase]
      cases hv : (getRegionFromRemote key (regionRead idx)).2 with
      | error e => simp [hv, getRegionFromRemote, isTsoMsg, ih (idx + 1)]
      | ok reg => simp [hv, getRegionFromRemote, isTsoMsg, ih (idx + 1)]

/-- C4 counterexample: the claim that a batch of only region requests causes
no `TsoRequest` is false.  `handleRequests` on a single-region-request batch
writes a `GetMeta` request and then a `Tso` request with `number = 0`: the call
to `getTSFromRemote` is unconditional. -/
theorem handleRequests_region_only_sends_tso_counterexample :
    (handleRequests
        (fun _ => .got (some (some { regionId := 1, startKey := [], endKey := [], peers := [] })))
        (.got (some [])) [.region [97]]).sent =
      [WireMsg.getMetaReq [97], WireMsg.tsoReq 0] ∧
    WireMsg.tsoReq 0 ∈
      (handleRequests
        (fun _ => .got (some (some { regionId := 1, startKey := [], endKey := [], peers := [] })))
        (.got (some [])) [.region [97]]).sent := by
  refine ⟨by decide, by decide⟩

/-- C4 amended: every `handleRequests` batch issues exactly one `Tso` round
trip, with `number` equal to the count of timestamp requests in the batch —
including `number = 0` for a batch with no timestamp request. -/
theorem handleRequests_always_one_tso_roundtrip
    (regionRead : Nat → WireRead (Option (Option Region)))
    (tsoRead : WireRead (Option (List Timestamp))) (batch : List ClientReq) :
    (handleRequests regionRead tsoRead batch).sent.filter isTsoMsg =
      [WireMsg.tsoReq (countTso batch)] := by
  simp only [handleRequests, getTSFromRemote]
  rw [List.filter_append]
  rw [regionPhase_no_tso_msg regionRead batch 0]
  simp [isTsoMsg]

end PD

namespace PD

theorem fillTso_filter_map (regionRead : Nat → WireRead (Option (Option Region)))
    (l : List Timestamp) :
    ∀ (batch : List ClientReq) (idx i : Nat),
      l.length = i + countTso batch →
      ((fillTso (.ok l) (regionPhase regionRead batch idx).2.1 i).filter
          (fun p => isTsoReq p.1)).map Prod.snd =
        (l.drop i).map (fun t => Completion.tsoOk t.physical t.logical) := by
  intro batch
  induction batch with
  | nil =>
    intro idx i hl
    simp only [countTso, List.filter_nil, List.length_nil] at hl
    have hd : l.drop i = [] := List.drop_eq_nil_of_le (by omega)
    simp [regionPhase, fillTso, hd]
  | cons req rest ih =>
    intro idx i hl
    cases req with
    | tso =>
      have hc : countTso (ClientReq.tso :: rest) = countTso rest + 1 := by
        simp [countTso, isTsoReq]
      have hi : i < l.length := by omega
      simp only [regionPhase, fillTso]
      rw [List.drop_eq_getElem_cons hi]
      simp only [List.filter_cons, List.map_cons]
      have : isTsoReq ClientReq.tso = true := rfl
      simp only [isTsoReq, if_pos]
      have hgetD : l.getD i { physical := 0, logical := 0 } = l[i] :=
        List.getD_eq_getElem l _ hi
      rw [hgetD]
      simp only [List.map_cons]
      congr 1
      exact ih idx (i + 1) (by omega)
    | region key =>
      have hc : countTso (ClientReq.region key :: rest) = countTso rest := by
        simp [countTso, isTsoReq]
      simp only [regionPhase]
      cases hv : (getRegionFromRemote key (regionRead idx)).2 with
      | error e =>
        simp only [hv, fillTso]
        have : isTsoReq (ClientReq.region key) = false := rfl
        simp only [List.filter_cons, this, Bool.false_eq_true, if_neg, ite_false]
        exact ih (idx + 1) i (by omega)
      | ok reg =>
        simp only [hv, fillTso]
        have : isTsoReq (ClientReq.region key) = false := rfl
        simp only [List.filter_cons, this, Bool.false_eq_true, if_neg, ite_false]
        exact ih (idx + 1) i (by omega)

/-- C5: `getTSFromRemote` sends a single `TsoRequest` with `number = n` and
returns an error unless the response carries exactly `n` timestamps (in
particular any returned list has length `n`); and when the response carries
exactly `countTso batch` timestamps, `handleRequests` completes the `i`-th
timestamp request of the batch (in submission order) with the `i`-th returned
timestamp. -/
theorem tso_batch_distribution_in_order :
    (∀ (n : Nat) (read : WireRead (Option (List Timestamp))) (l : List Timestamp),
       (getTSFromRemote n read).2 = .ok l → l.length = n) ∧
    (∀ (n : Nat) (l : List Timestamp), l.length ≠ n →
       (getTSFromRemote n (.got (some l))).2 = .error .tsoLengthIncorrect) ∧
    (∀ (regionRead : Nat → WireRead (Option (Option Region)))
       (batch : List ClientReq) (l : List Timestamp),
       l.length = countTso batch →
       ((handleRequests regionRead (.got (some l)) batch).comps.filter
           (fun p => isTsoReq p.1)).map Prod.snd =
         l.map (fun t => Completion.tsoOk t.physical t.logical)) := by
  refine ⟨?_, ?_, ?_⟩
  · intro n read l h
    cases read with
    | ioErr => simp [getTSFromRemote] at h
    | got o =>
      cases o with
      | none => simp [getTSFromRemote] at h
      | some ts =>
        simp only [getTSFromRemote] at h
        by_cases hn : ts.length ≠ n
        · simp [hn] at h
        · simp [hn] at h
          rw [← h]
          omega
  · intro n l h
    simp [getTSFromRemote, h]
  · intro regionRead batch l hl
    have hok : (getTSFromRemote (countTso batch) (.got (some l))).2 = .ok l := by
      simp [getTSFromRemote, hl]
    simp only [handleRequests]
    rw [hok]
    simpa using fillTso_filter_map regionRead l batch 0 0 (by omega)

/-- C5 witness: a batch of one timestamp request receives the single returned
timestamp `(5, 7)`. -/
theorem tso_batch_distribution_in_order_witness :
    ((handleRequests (fun _ => WireRead.ioErr)
        (.got (some [{ physical := 5, logical := 7 }])) [.tso]).comps.filter
        (fun p => isTsoReq p.1)).map Prod.snd =
      [Completion.tsoOk 5 7] :=
  tso_batch_distribution_in_order.2.2 (fun _ => WireRead.ioErr)
    [.tso] [{ physical := 5, logical := 7 }] (by decide)

end PD

namespace PD

/-- C6 counterexample: the claim that all four job-store operations are
leader-conditional is false for peek.  When the leader-lease comparison fails,
`postJob`, `updateJobStatus` and `popJob` all fail with the leader-lost error,
but `getJob` — a plain unconditional range read — still returns the queued
job. -/
theorem getJob_not_leader_conditional_counterexample :
    postJob false [] 2 { header := none, adminRequest := none } = .err .leaderLost ∧
    updateJobStatus false (some { jobId := 1, status := some .Pending, request := none })
        .Running = .err .leaderLost ∧
    popJob false [{ jobId := 1, status := some .Pending, request := none }]
        { jobId := 1, status := some .Pending, request := none } = .err .leaderLost ∧
    getJob [{ jobId := 1, status := some .Pending, request := none }] =
      .ok (some { jobId := 1, status := some .Pending, request := none }) := by
  refine ⟨by decide, by decide, by decide, rfl⟩

/-- C6 amended: the three write operations (`postJob`, `updateJobStatus`,
`popJob`) execute inside a transaction conditional on the leader-lease
comparison and fail with a leader-lost error exactly when the comparison
fails, while peek (`getJob`) is an unconditional ascending-limit-1 range read
that takes no leadership input and always returns the least-id job. -/
theorem jobStore_write_ops_leader_conditional
    (jobs : List Job) (jobId : Nat) (req : RaftCommandRequest) (j : Job)
    (st : JobStatus) :
    postJob false jobs jobId req = .err .leaderLost ∧
    updateJobStatus false (some j) st = .err .leaderLost ∧
    popJob false jobs j = .err .leaderLost ∧
    postJob true jobs jobId req =
      .ok (jobs ++ [{ jobId := jobId, status := some .Pending, request := some req }]) ∧
    updateJobStatus true (some j) st = .ok { j with status := some st } ∧
    popJob true jobs j = .ok (jobs.filter (fun k => k.jobId ≠ j.jobId)) ∧
    getJob jobs = .ok (minIdJob jobs) := by
  exact ⟨rfl, rfl, rfl, rfl, rfl, rfl, rfl⟩

/-- C7 (code bug): when `getJob` returns an error, the job-worker iteration
does not stop — the error branch only logs and falls through (the `continue`
is missing), so `handleJob` is invoked with a nil job pointer and panics on a
nil-pointer dereference, for every possible proto2 enum default and leadership
state: if the nil job's status getter reads `Pending`, the panic is the field
assignment in `updateJobStatus`; otherwise it is the `req.AdminRequest` access
on the nil request. -/
theorem onJobWorker_getJob_error_panics
    (dflt : JobStatus) (leaderOk : Bool) (chg spl : GoResult JobErr Unit)
    (e : JobErr) :
    onJobWorkerIter true (.error e) (handleJob dflt leaderOk chg spl) =
      .handled .panics := by
  cases dflt <;> rfl

end PD

namespace PD

theorem scanPeers_store_iff (storeID nodeID : Nat) :
    ∀ peers : List Peer,
      (scanPeers storeID nodeID peers).2 = true ↔ ∃ p ∈ peers, p.storeId = storeID := by
  intro peers
  induction peers with
  | nil => simp [scanPeers]
  | cons p rest ih =>
    simp only [scanPeers]
    by_cases hp : p.storeId = storeID
    · simp [hp]
    · simp only [hp, if_neg, ite_false]
      simp only [List.mem_cons]
      constructor
      · intro h
        obtain ⟨q, hq, hqs⟩ := ih.mp h
        exact ⟨q, Or.inr hq, hqs⟩
      · intro h
        obtain ⟨q, hq, hqs⟩ := h
        rcases hq with hq | hq
        · rw [hq] at hqs; exact absurd hqs hp
        · exact ih.mpr ⟨q, hq, hqs⟩

theorem collectStores_mem (peers : List Peer) :
    ∀ (stores : List Store) (s : Store),
      (s ∈ (collectStores peers stores).1 ∨ s ∈ (collectStores peers stores).2) →
      s ∈ stores ∧ (scanPeers s.storeId s.nodeId peers).2 = false := by
  intro stores
  induction stores with
  | nil => intro s h; simp [collectStores] at h
  | cons st rest ih =>
    intro s h
    simp only [collectStores] at h
    by_cases h2 : (scanPeers st.storeId st.nodeId peers).2
    · simp only [h2, ite_true] at h
      obtain ⟨hm, hs⟩ := ih s h
      exact ⟨List.mem_cons_of_mem _ hm, hs⟩
    · simp only [h2, Bool.false_eq_true, ite_false] at h
      by_cases h1 : (scanPeers st.storeId st.nodeId peers).1
      · simp only [h1, ite_true] at h
        rcases h with h | h
        · obtain ⟨hm, hs⟩ := ih s (Or.inl h)
          exact ⟨List.mem_cons_of_mem _ hm, hs⟩
        · simp only [List.mem_cons] at h
          rcases h with h | h
          · rw [h]
            exact ⟨List.mem_cons_self _ _, by simpa using h2⟩
          · obtain ⟨hm, hs⟩ := ih s (Or.inr h)
            exact ⟨List.mem_cons_of_mem _ hm, hs⟩
      · simp only [h1, Bool.false_eq_true, ite_false] at h
        rcases h with h | h
        · simp only [List.mem_cons] at h
          rcases h with h | h
          · rw [h]
            exact ⟨List.mem_cons_self _ _, by simpa using h2⟩
          · obtain ⟨hm, hs⟩ := ih s (Or.inl h)
            exact ⟨List.mem_cons_of_mem _ hm, hs⟩
        · obtain ⟨hm, hs⟩ := ih s (Or.inr h)
          exact ⟨List.mem_cons_of_mem _ hm, hs⟩

theorem collectStores_empty_iff (peers : List Peer) :
    ∀ stores : List Store,
      ((collectStores peers stores).1 = [] ∧ (collectStores peers stores).2 = []) ↔
        ∀ s ∈ stores, (scanPeers s.storeId s.nodeId peers).2 = true := by
  intro stores
  induction stores with
  | nil => simp [collectStores]
  | cons st rest ih =>
    simp only [collectStores]
    by_cases h2 : (scanPeers st.storeId st.nodeId peers).2
    · simp only [h2, ite_true]
      rw [ih]
      simp [h2]
    · by_cases h1 : (scanPeers st.storeId st.nodeId peers).1
      · simp only [h2, Bool.false_eq_true, ite_false, h1, ite_true]
        constructor
        · intro h; simp at h
        · intro h
          have := h st (List.mem_cons_self _ _)
          rw [this] at h2
          exact absurd rfl h2
      · simp only [h2, Bool.false_eq_true, ite_false, h1, ite_false]
        constructor
        · intro h; simp at h
        · intro h
          have := h st (List.mem_cons_self _ _)
          rw [this] at h2
          exact absurd rfl h2

theorem chooseStore_mem (r : Nat) (bestStores matchStores : List Store) :
    (0 < bestStores.length → chooseStore r bestStores matchStores ∈ bestStores) ∧
    (bestStores = [] → 0 < matchStores.length →
       chooseStore r bestStores matchStores ∈ matchStores) := by
  constructor
  · intro h
    unfold chooseStore
    rw [if_pos h]
    have hlt : r % bestStores.length < bestStores.length := Nat.mod_lt _ h
    rw [List.getD_eq_getElem _ _ hlt]
    exact List.getElem_mem hlt
  · intro hb h
    unfold chooseStore
    rw [if_neg (by simp [hb])]
    have hlt : r % matchStores.length < matchStores.length := Nat.mod_lt _ h
    rw [List.getD_eq_getElem _ _ hlt]
    exact List.getElem_mem hlt

end PD

namespace PD

/-- C8: `handleAddPeerReq` fails with the no-placement error exactly when
every store already hosts a peer of the region; otherwise it returns a peer
carrying the freshly allocated id, placed on a store hosting no peer of the
region, chosen from the best stores (no peer on store or node) whenever any
exist and otherwise from the match stores (peer on the same node only) —
hence the added peer never duplicates a `store_id` of the region. -/
theorem handleAddPeerReq_placement_correct
    (peerID r : Nat) (stores : List Store) (peers : List Peer) :
    ((handleAddPeerReq peerID r stores peers = .error .noStoreToAddPeer) ↔
       ∀ s ∈ stores, ∃ p ∈ peers, p.storeId = s.storeId) ∧
    (∀ pr, handleAddPeerReq peerID r stores peers = .ok pr →
       pr.peerId = peerID ∧
       (∀ p ∈ peers, p.storeId ≠ pr.storeId) ∧
       ((0 < (collectStores peers stores).1.length ∧
           ({ storeId := pr.storeId, nodeId := pr.nodeId } : Store) ∈
             (collectStores peers stores).1) ∨
        ((collectStores peers stores).1 = [] ∧
           ({ storeId := pr.storeId, nodeId := pr.nodeId } : Store) ∈
             (collectStores peers stores).2))) := by
  have hchar : ∀ s : Store,
      (s ∈ (collectStores peers stores).1 ∨ s ∈ (collectStores peers stores).2) →
      s ∈ stores ∧ ∀ p ∈ peers, p.storeId ≠ s.storeId := by
    intro s hs
    obtain ⟨hm, hsc⟩ := collectStores_mem peers stores s hs
    refine ⟨hm, ?_⟩
    intro p hp hps
    have : (scanPeers s.storeId s.nodeId peers).2 = true :=
      (scanPeers_store_iff s.storeId s.nodeId peers).mpr ⟨p, hp, hps⟩
    rw [this] at hsc
    exact absurd hsc (by simp)
  constructor
  · unfold handleAddPeerReq
    by_cases hc : (collectStores peers stores).1.length = 0 ∧
        (collectStores peers stores).2.length = 0
    · simp only [hc, ite_true]
      constructor
      · intro _
        have hnil : (collectStores peers stores).1 = [] ∧
            (collectStores peers stores).2 = [] := by
          constructor <;> [exact List.eq_nil_of_length_eq_zero hc.1;
            exact List.eq_nil_of_length_eq_zero hc.2]
        intro s hs
        have := (collectStores_empty_iff peers stores).mp hnil s hs
        exact (scanPeers_store_iff s.storeId s.nodeId peers).mp this
      · intro _; rfl
    · simp only [hc, ite_false]
      constructor
      · intro h; exact absurd h (by simp)
      · intro hall
        exfalso
        have hnil : (collectStores peers stores).1 = [] ∧
            (collectStores peers stores).2 = [] := by
          rw [collectStores_empty_iff peers stores]
          intro s hs
          exact (scanPeers_store_iff s.storeId s.nodeId peers).mpr (hall s hs)
        exact hc ⟨by rw [hnil.1]; rfl, by rw [hnil.2]; rfl⟩
  · intro pr hok
    unfold handleAddPeerReq at hok
    by_cases hc : (collectStores peers stores).1.length = 0 ∧
        (collectStores peers stores).2.length = 0
    · rw [if_pos hc] at hok
      exact absurd hok (by simp)
    · rw [if_neg hc] at hok
      simp only [Except.ok.injEq] at hok
      set cs := chooseStore r (collectStores peers stores).1 (collectStores peers stores).2 with hcs
      have hpr1 : pr.peerId = peerID := by rw [← hok]
      have hpr2 : pr.storeId = cs.storeId := by rw [← hok]
      have hpr3 : pr.nodeId = cs.nodeId := by rw [← hok]
      have hcseq : ({ storeId := pr.storeId, nodeId := pr.nodeId } : Store) = cs := by
        rw [hpr2, hpr3]
      have hmem : cs ∈ (collectStores peers stores).1 ∨
          ((collectStores peers stores).1 = [] ∧ cs ∈ (collectStores peers stores).2) := by
        by_cases hb : 0 < (collectStores peers stores).1.length
        · exact Or.inl ((chooseStore_mem r _ _).1 hb)
        · have hbe : (collectStores peers stores).1 = [] :=
            List.eq_nil_of_length_eq_zero (by omega)
          have hml : 0 < (collectStores peers stores).2.length := by
            rcases Nat.eq_zero_or_pos (collectStores peers stores).2.length with h0 | h0
            · exact absurd ⟨by omega, h0⟩ hc
            · exact h0
          exact Or.inr ⟨hbe, (chooseStore_mem r _ _).2 hbe hml⟩
      refine ⟨hpr1, ?_, ?_⟩
      · intro p hp
        have := (hchar cs (hmem.imp (fun h => h) (fun h => h.2))).2 p hp
        rw [hpr2]
        exact this
      · rcases hmem with h | h
        · left
          refine ⟨?_, by rw [hcseq]; exact h⟩
          cases hl : (collectStores peers stores).1 with
          | nil => rw [hl] at h; exact absurd h (by simp)
          | cons a l => simp [hl]
        · right
          exact ⟨h.1, by rw [hcseq]; exact h.2⟩

/-- C8 witness: one store on a fresh node, one existing peer elsewhere; the
returned peer `(5, 2, 2)` is on the best store and collides with no existing
peer. -/
theorem handleAddPeerReq_placement_correct_witness :
    ({ peerId := 5, nodeId := 2, storeId := 2 } : Peer).peerId = 5 ∧
    (∀ p ∈ ([{ peerId := 9, nodeId := 1, storeId := 1 }] : List Peer),
       p.storeId ≠ ({ peerId := 5, nodeId := 2, storeId := 2 } : Peer).storeId) ∧
    ((0 < (collectStores [{ peerId := 9, nodeId := 1, storeId := 1 }]
          [{ storeId := 2, nodeId := 2 }]).1.length ∧
        ({ storeId := 2, nodeId := 2 } : Store) ∈
          (collectStores [{ peerId := 9, nodeId := 1, storeId := 1 }]
            [{ storeId := 2, nodeId := 2 }]).1) ∨
     ((collectStores [{ peerId := 9, nodeId := 1, storeId := 1 }]
          [{ storeId := 2, nodeId := 2 }]).1 = [] ∧
        ({ storeId := 2, nodeId := 2 } : Store) ∈
          (collectStores [{ peerId := 9, nodeId := 1, storeId := 1 }]
            [{ storeId := 2, nodeId := 2 }]).2)) :=
  (handleAddPeerReq_placement_correct 5 0
      [{ storeId := 2, nodeId := 2 }] [{ peerId := 9, nodeId := 1, storeId := 1 }]).2
    { peerId := 5, nodeId := 2, storeId := 2 } rfl

end PD

namespace PD

theorem drainLoop_spec (e : RpcErr) :
    ∀ q : List ClientReq, drainLoop e q = q.map (fun r => (r, e)) := by
  intro q
  induction q with
  | nil => rfl
  | cons r rest ih =>
    cases r with
    | tso => simp [drainLoop, ih]
    | region key => simp [drainLoop, ih]

/-- C9: after `stop(err)`, the shutdown channel is closed, the worker has
exited, the queue is empty, and the drain delivered exactly one completion per
previously queued request, in order, each carrying the supplied error. -/
theorem stop_drains_all_requests (e : RpcErr) (w : WorkerState) :
    (stop e w).1.quitClosed = true ∧
    (stop e w).1.workerExited = true ∧
    (stop e w).1.queued = [] ∧
    (stop e w).2 = w.queued.map (fun r => (r, e)) := by
  exact ⟨rfl, rfl, rfl, drainLoop_spec e w.queued⟩

theorem findNewLeader_none (probe : Peer → Except Unit (Option Peer))
    (originPeerId : Nat) :
    ∀ peers : List Peer,
      (∀ p ∈ peers, p.peerId ≠ originPeerId →
         probe p = .error () ∨ probe p = .ok none) →
      findNewLeader probe originPeerId peers = none := by
  intro peers
  induction peers with
  | nil => intro _; rfl
  | cons p rest ih =>
    intro h
    unfold findNewLeader
    by_cases hp : p.peerId = originPeerId
    · rw [if_pos hp]
      exact ih (fun q hq => h q (List.mem_cons_of_mem _ hq))
    · rw [if_neg hp]
      rcases h p (List.mem_cons_self _ _) hp with hpr | hpr
      · rw [hpr]
        exact ih (fun q hq => h q (List.mem_cons_of_mem _ hq))
      · rw [hpr]
        exact ih (fun q hq => h q (List.mem_cons_of_mem _ hq))

/-- C10: when `callCommand` yields a response whose header carries a
`NotLeader` error with no leader hint and probing every other peer of the
region fails to discover a leader (errors or reports none), `sendRaftCommand`
returns that very response with a nil error on the same attempt, consuming no
further retries. -/
theorem sendRaftCommand_notLeader_no_hint_returns_resp
    (call : Nat → Peer → Except Unit RaftCommandResponse)
    (probe : Nat → Peer → Except Unit (Option Peer))
    (region : Region) (reqPeer : Peer) (resp : RaftCommandResponse)
    (hd : RaftResponseHeader) (er : RespError) (nl : NotLeaderErr)
    (hcall : call maxSendRetry reqPeer = .ok resp)
    (hh : resp.header = some hd) (he : hd.error = some er)
    (hnl : er.notLeader = some nl) (hld : nl.leader = none)
    (hprobe : ∀ p ∈ region.peers, p.peerId ≠ reqPeer.peerId →
       probe maxSendRetry p = .error () ∨ probe maxSendRetry p = .ok none) :
    sendRaftCommand call probe region reqPeer = .ok resp := by
  unfold sendRaftCommand
  have hms : maxSendRetry = 9 + 1 := rfl
  rw [hms] at hcall hprobe ⊢
  unfold sendLoop
  simp only [hcall, hh, he, hnl, hld,
    findNewLeader_none (probe (9 + 1)) reqPeer.peerId region.peers hprobe]

/-- C10 witness: a two-peer region whose probes all report no leader; the
`NotLeader`-bearing response is returned as the successful result. -/
theorem sendRaftCommand_notLeader_no_hint_returns_resp_witness :
    sendRaftCommand
      (fun _ _ => .ok { header := some { error := some { notLeader := some { regionId := 7, leader := none } } } })
      (fun _ _ => .ok none)
      { regionId := 7, startKey := [], endKey := [], peers := [{ peerId := 1, nodeId := 1, storeId := 1 }, { peerId := 2, nodeId := 2, storeId := 2 }] }
      { peerId := 1, nodeId := 1, storeId := 1 } =
    .ok { header := some { error := some { notLeader := some { regionId := 7, leader := none } } } } :=
  sendRaftCommand_notLeader_no_hint_returns_resp
    (fun _ _ => .ok { header := some { error := some { notLeader := some { regionId := 7, leader := none } } } })
    (fun _ _ => .ok none)
    { regionId := 7, startKey := [], endKey := [], peers := [{ peerId := 1, nodeId := 1, storeId := 1 }, { peerId := 2, nodeId := 2, storeId := 2 }] }
    { peerId := 1, nodeId := 1, storeId := 1 }
    { header := some { error := some { notLeader := some { regionId := 7, leader := none } } } }
    { error := some { notLeader := some { regionId := 7, leader := none } } }
    { notLeader := some { regionId := 7, leader := none } }
    { regionId := 7, leader := none }
    rfl rfl rfl rfl rfl
    (by intro p hp hne; right; rfl)

end PD
